import Mathlib

/-!
# The parameter buffer pool of `caffe/multi_node/fc_thread.hpp`

A shallow embedding of `ParamBuf<Dtype>` and of the accessor
`FcWorker<Dtype>::GetParamBuf`, followed by the properties proved about them.

Conventions of the embedding:

* a `void *` is the address it holds, a natural number;
* a `vector<Blob<Dtype>*> *` is `Option Ptr`, `none` being `NULL`;
* an `int` is an `Int` (the functions embedded here store, compare and return
  clocks and slot indices, they do no arithmetic on them);
* an `unordered_map` is the list of its nodes, whose keys are pairwise distinct;
* an `unordered_map` iterator is the node it designates, or `none` when it is
  past the end. In the node-based hash tables the code is built against, the
  past-the-end iterator holds a null node pointer whatever table it was asked
  from, so `end()` of any table is `none`;
* a `CHECK` that does not hold ends the call: the call has outcome
  `checkFailed` with the text streamed to the log, and the pool is the one the
  call had reached at that point;
* every member function holds `ref_mutex_` from its first to its last
  statement, so a call is one atomic step on the pool.
-/

namespace caffe

/-- Address held by a `void *`. -/
abbrev Ptr := Nat

/-- An `unordered_map<K, V>`: its nodes, no two of them with the same key. -/
structure UnorderedMap (K V : Type) where
  nodes : List (K × V)
  nodup : (nodes.map Prod.fst).Nodup

/-- An `unordered_map<K, V>::iterator`: the node it designates, `none` when it
is past the end. -/
abbrev Iterator (K V : Type) := Option (K × V)

namespace UnorderedMap

variable {K V : Type}

/-- A default-constructed map. -/
def empty : UnorderedMap K V := ⟨[], List.nodup_nil⟩

/-- Number of nodes: `size()`. -/
def size (m : UnorderedMap K V) : Nat := m.nodes.length

/-- The keys the map holds. -/
def keys (m : UnorderedMap K V) : List K := m.nodes.map Prod.fst

/-- Iterator to the node of key `k`: `find(k)`; past the end when there is none. -/
def find [DecidableEq K] (m : UnorderedMap K V) (k : K) : Iterator K V :=
  m.nodes.find? (fun n => decide (n.1 = k))

/-- Past-the-end iterator: `end()`. It is the null node, for every map. -/
def «end» (_m : UnorderedMap K V) : Iterator K V := none

/-- Removal of the node an iterator designates: `erase(iter)`. -/
def erase [DecidableEq K] [DecidableEq V] (m : UnorderedMap K V) (n : K × V) :
    UnorderedMap K V :=
  ⟨m.nodes.erase n, m.nodup.sublist ((List.erase_sublist n m.nodes).map Prod.fst)⟩

/-- Removal by key: `erase(k)`; nothing happens when the key is absent. -/
def eraseKey [DecidableEq K] [DecidableEq V] (m : UnorderedMap K V) (k : K) :
    UnorderedMap K V :=
  match m.find k with
  | some n => m.erase n
  | none => m

/-- Insertion of a node for a key the map does not hold; the map is returned as
it is when the key is present. -/
def insert [DecidableEq K] (m : UnorderedMap K V) (k : K) (v : V) : UnorderedMap K V :=
  if h : k ∈ m.nodes.map Prod.fst then m
  else ⟨(k, v) :: m.nodes, List.nodup_cons.mpr ⟨h, m.nodup⟩⟩

end UnorderedMap

/-- How a call ends: it returns a value, or one of its `CHECK`s does not hold
and the text and the operand streamed after it are logged. -/
inductive Outcome (α : Type) where
  | returned (a : α)
  | checkFailed (text : String) (operand : Int)
  deriving DecidableEq, Repr

/-- The data members of `ParamBuf<Dtype>` (the mutex apart). -/
structure ParamBuf where
  /-- a vector of parameters -/
  param_vec_ : List Ptr
  /-- the reference count of each parameter -/
  ref_cnt_vec_ : List Int
  /-- the latest param generated by parameter thread -/
  platest_param_ : Option Ptr
  /-- map a param pointer to ref index -/
  pointer_to_idx_ : UnorderedMap Ptr Int
  /-- map a solver pointer to ref index -/
  psolver_to_idx_ : UnorderedMap Ptr Int
  /-- map solver to clock -/
  psolver_to_clock_ : UnorderedMap Ptr Int
  /-- bind a clock to a parameter index -/
  clock_to_idx_ : UnorderedMap Int Int

namespace ParamBuf

/-- The constructor `ParamBuf() { platest_param_ = NULL; }`: the vectors and the
maps are default-constructed, hence empty. -/
def new : ParamBuf :=
  { param_vec_ := []
    ref_cnt_vec_ := []
    platest_param_ := none
    pointer_to_idx_ := UnorderedMap.empty
    psolver_to_idx_ := UnorderedMap.empty
    psolver_to_clock_ := UnorderedMap.empty
    clock_to_idx_ := UnorderedMap.empty }

/-- The member `GetClock(void *psolver)`. The iterator comes from
`psolver_to_clock_`; the `CHECK` compares it with `psolver_to_idx_.end()`. -/
def GetClock (self : ParamBuf) (psolver : Ptr) : Outcome Int × ParamBuf :=
  let iter := self.psolver_to_clock_.find psolver
  if h : iter ≠ self.psolver_to_idx_.end then
    (.returned (iter.get (Option.ne_none_iff_isSome.mp h)).2, self)
  else
    (.checkFailed "cannot find index to pointer: " psolver, self)

/-- The member `RemoveClock(int clock)`. -/
def RemoveClock (self : ParamBuf) (clock : Int) : Outcome Unit × ParamBuf :=
  let iter := self.clock_to_idx_.find clock
  if h : iter ≠ self.clock_to_idx_.end then
    (.returned (),
      { self with
        clock_to_idx_ := self.clock_to_idx_.erase (iter.get (Option.ne_none_iff_isSome.mp h)) })
  else
    (.checkFailed "cannot find clock in map: " clock, self)

/-- Element access `v[idx]` with an `int` index: the element, when there is one
at that position. -/
def at? {α : Type} (v : List α) (idx : Int) : Option α :=
  if 0 ≤ idx then v.get? idx.toNat else none

/-- Modelled from the spec: `InitParamBuf` (declared in the header, defined
outside it), the spec's `init(template_version)`: it seeds slot 0 from a
template with reference count 0, and that slot is the latest version. `p` is the
address of the storage made for the slot. -/
def InitParamBuf (self : ParamBuf) (p : Ptr) : ParamBuf :=
  { self with
    param_vec_ := self.param_vec_ ++ [p]
    ref_cnt_vec_ := self.ref_cnt_vec_ ++ [0]
    platest_param_ := some p
    pointer_to_idx_ := self.pointer_to_idx_.insert p self.param_vec_.length }

/-- Modelled from the spec: `RefParam` (declared in the header, defined outside
it), the spec's `bind(owner, clock)`: it looks up the current latest slot,
increments its reference count, records owner→slot and owner→clock, records
clock→slot if not already present, and returns the bound version. Binding an
owner that is bound already is a usage error and is reported; so is a latest
slot that cannot be found. -/
def RefParam (self : ParamBuf) (psolver : Ptr) (clock : Int) :
    Outcome (Option Ptr) × ParamBuf :=
  match self.psolver_to_idx_.find psolver with
  | some _ => (.checkFailed "owner is already bound: " psolver, self)
  | none =>
    match self.platest_param_.bind self.pointer_to_idx_.find with
    | none => (.checkFailed "cannot find index to latest param" 0, self)
    | some node =>
      let idx := node.2
      match at? self.ref_cnt_vec_ idx with
      | none => (.checkFailed "no slot at index: " idx, self)
      | some cnt =>
        (.returned (at? self.param_vec_ idx),
          { self with
            ref_cnt_vec_ := self.ref_cnt_vec_.set idx.toNat (cnt + 1)
            psolver_to_idx_ := self.psolver_to_idx_.insert psolver idx
            psolver_to_clock_ :=
              (self.psolver_to_clock_.eraseKey psolver).insert psolver clock
            clock_to_idx_ := self.clock_to_idx_.insert clock idx })

/-- Modelled from the spec: `DeRefParam` (declared in the header, defined
outside it), the spec's `release(owner)`: it finds the owner's bound slot,
decrements its reference count (never below 0) and removes the owner→slot
mapping; it fails with "unknown owner" when the owner has no active binding. A
count that would go negative is fatal. -/
def DeRefParam (self : ParamBuf) (psolver : Ptr) : Outcome Unit × ParamBuf :=
  match self.psolver_to_idx_.find psolver with
  | none => (.checkFailed "unknown owner: " psolver, self)
  | some node =>
    let idx := node.2
    match at? self.ref_cnt_vec_ idx with
    | none => (.checkFailed "no slot at index: " idx, self)
    | some cnt =>
      if cnt - 1 < 0 then (.checkFailed "unexpected reference counter: " (cnt - 1), self)
      else
        (.returned (),
          { self with
            ref_cnt_vec_ := self.ref_cnt_vec_.set idx.toNat (cnt - 1)
            psolver_to_idx_ := self.psolver_to_idx_.erase node })

/-- Modelled from the spec: `FindFreeParam` (declared in the header, defined
outside it), the spec's `find_free()`: a linear scan for a slot with reference
count 0 that is not the current latest; `none` (`NULL`) if no slot is free. -/
def FindFreeParam (self : ParamBuf) : Option Ptr :=
  ((self.param_vec_.zip self.ref_cnt_vec_).find?
    (fun slot => decide (slot.2 = 0 ∧ some slot.1 ≠ self.platest_param_))).map Prod.fst

/-- One call of a worker on the pool: a bind or a release. -/
inductive Call where
  | RefParam (psolver : Ptr) (clock : Int)
  | DeRefParam (psolver : Ptr)
  deriving DecidableEq, Repr

/-- The pool after one call, and whether the call returned. -/
def step (self : ParamBuf) : Call → Outcome Unit × ParamBuf
  | .RefParam psolver clock =>
    match self.RefParam psolver clock with
    | (.returned _, s) => (.returned (), s)
    | (.checkFailed text operand, s) => (.checkFailed text operand, s)
  | .DeRefParam psolver => self.DeRefParam psolver

/-- The calls of a sequence made one after the other; the first failed check
ends the run. -/
def run (self : ParamBuf) : List Call → Outcome Unit × ParamBuf
  | [] => (.returned (), self)
  | c :: cs =>
    match step self c with
    | (.returned _, s) => run s cs
    | (.checkFailed text operand, s) => (.checkFailed text operand, s)

/-- The owners bound and not yet released, read off a sequence of calls;
`held` are those bound when the sequence starts. -/
def unreleased (held : List Ptr) : List Call → List Ptr
  | [] => held
  | .RefParam psolver _ :: cs => unreleased (psolver :: held) cs
  | .DeRefParam psolver :: cs => unreleased (held.erase psolver) cs

/-- The owners of a sequence of calls are kept apart: no owner is bound while
it is bound, and only a bound owner is released. -/
def disjointOwners (held : List Ptr) : List Call → Prop
  | [] => True
  | .RefParam psolver _ :: cs => psolver ∉ held ∧ disjointOwners (psolver :: held) cs
  | .DeRefParam psolver :: cs => psolver ∈ held ∧ disjointOwners (held.erase psolver) cs

/-- The pool seeded at `p` keeps track of the owners `held`: its single slot is
the latest version, counts one reference per owner of `held`, and the
owner->slot map has exactly the owners of `held` as keys, all bound to slot 0. -/
def Tracks (p : Ptr) (held : List Ptr) (self : ParamBuf) : Prop :=
  self.platest_param_ = some p
    ∧ self.pointer_to_idx_.nodes = [(p, 0)]
    ∧ self.ref_cnt_vec_ = [(held.length : Int)]
    ∧ held.Nodup
    ∧ (∀ o, o ∈ self.psolver_to_idx_.keys ↔ o ∈ held)
    ∧ (∀ n ∈ self.psolver_to_idx_.nodes, n.2 = 0)

end ParamBuf

namespace FcWorker

variable {Dtype : Type} [DecidableEq Dtype]

end FcWorker

/-- A pool with two slots, the second one the latest, two owners and two
clocks. -/
def samplePool : ParamBuf :=
  { param_vec_ := [100, 200]
    ref_cnt_vec_ := [1, 1]
    platest_param_ := some 200
    pointer_to_idx_ := ⟨[(100, 0), (200, 1)], by decide⟩
    psolver_to_idx_ := ⟨[(7, 0), (9, 1)], by decide⟩
    psolver_to_clock_ := ⟨[(7, 3), (9, 5)], by decide⟩
    clock_to_idx_ := ⟨[(3, 0), (5, 1)], by decide⟩ }

/-- Three owners binding and one of them releasing. -/
def sampleCalls : List ParamBuf.Call :=
  [.RefParam 1 0, .RefParam 2 0, .DeRefParam 1, .RefParam 3 1]

namespace UnorderedMap

variable {K V : Type}

theorem mem_keys_of_mem_nodes (m : UnorderedMap K V) {k : K} {v : V}
    (h : (k, v) ∈ m.nodes) : k ∈ m.keys :=
  List.mem_map.mpr ⟨(k, v), h, rfl⟩

variable [DecidableEq K]

theorem find_eq_none_iff (m : UnorderedMap K V) (k : K) :
    m.find k = none ↔ k ∉ m.keys := by
  unfold find keys
  rw [List.find?_eq_none]
  constructor
  · intro h hk
    obtain ⟨n, hn, rfl⟩ := List.mem_map.mp hk
    exact h n hn (by simp)
  · intro h n hn hk
    exact h (List.mem_map.mpr ⟨n, hn, by simpa using hk⟩)

theorem find_eq_some_iff (m : UnorderedMap K V) (k : K) (n : K × V) :
    m.find k = some n ↔ n ∈ m.nodes ∧ n.1 = k := by
  constructor
  · intro h
    unfold find at h
    exact ⟨List.mem_of_find?_eq_some h, by simpa using List.find?_some h⟩
  · rintro ⟨hn, rfl⟩
    cases hf : m.find n.1 with
    | none =>
      exact absurd (List.mem_map.mpr ⟨n, hn, rfl⟩) ((m.find_eq_none_iff n.1).mp hf)
    | some n' =>
      unfold find at hf
      have h1 : n' ∈ m.nodes := List.mem_of_find?_eq_some hf
      have h2 : n'.1 = n.1 := by simpa using List.find?_some hf
      exact congrArg some (List.inj_on_of_nodup_map m.nodup h1 hn h2)

theorem find_ne_none_iff (m : UnorderedMap K V) (k : K) :
    m.find k ≠ none ↔ k ∈ m.keys := by
  rw [Ne, find_eq_none_iff, not_not]

variable [DecidableEq V]

theorem find_erase_self (m : UnorderedMap K V) (k : K) (n : K × V)
    (h : m.find k = some n) : (m.erase n).find k = none := by
  obtain ⟨hn, hk⟩ := (m.find_eq_some_iff k n).mp h
  rw [find_eq_none_iff]
  intro hmem
  obtain ⟨n', hn', hk'⟩ := List.mem_map.mp hmem
  have hnd : m.nodes.Nodup := List.Nodup.of_map _ m.nodup
  have h1 : n' ≠ n ∧ n' ∈ m.nodes := (List.Nodup.mem_erase_iff hnd).mp hn'
  exact h1.1 (List.inj_on_of_nodup_map m.nodup h1.2 hn (hk'.trans hk.symm))

theorem find_erase_of_ne (m : UnorderedMap K V) (n : K × V) (k : K) (h : k ≠ n.1) :
    (m.erase n).find k = m.find k := by
  unfold find erase
  simp only
  induction m.nodes with
  | nil => rfl
  | cons x xs ih =>
    by_cases hx : x = n
    · subst hx
      have hk : ¬ x.1 = k := fun e => h e.symm
      simp [List.find?_cons, hk]
    · rw [List.erase_cons_tail (by simpa using hx)]
      simp only [List.find?_cons]
      split
      · rfl
      · exact ih

theorem size_erase (m : UnorderedMap K V) (n : K × V) (h : n ∈ m.nodes) :
    (m.erase n).size + 1 = m.size := by
  unfold size erase
  simp only
  rw [List.length_erase_of_mem h]
  have : 0 < m.nodes.length := List.length_pos_of_mem h
  omega

end UnorderedMap

/-! ## `GetClock` and `RemoveClock` -/

namespace ParamBuf

theorem GetClock_of_find_none (self : ParamBuf) (psolver : Ptr)
    (h : self.psolver_to_clock_.find psolver = none) :
    self.GetClock psolver = (.checkFailed "cannot find index to pointer: " psolver, self) := by
  simp [GetClock, UnorderedMap.«end», h]

theorem GetClock_of_find_some (self : ParamBuf) (psolver : Ptr) (node : Ptr × Int)
    (h : self.psolver_to_clock_.find psolver = some node) :
    self.GetClock psolver = (.returned node.2, self) := by
  simp [GetClock, UnorderedMap.«end», h]

theorem RemoveClock_of_find_none (self : ParamBuf) (clock : Int)
    (h : self.clock_to_idx_.find clock = none) :
    self.RemoveClock clock = (.checkFailed "cannot find clock in map: " clock, self) := by
  simp [RemoveClock, UnorderedMap.«end», h]

theorem RemoveClock_of_find_some (self : ParamBuf) (clock : Int) (node : Int × Int)
    (h : self.clock_to_idx_.find clock = some node) :
    self.RemoveClock clock =
      (.returned (), { self with clock_to_idx_ := self.clock_to_idx_.erase node }) := by
  simp [RemoveClock, UnorderedMap.«end», h]

theorem exists_find_of_mem_keys {K V : Type} [DecidableEq K] (m : UnorderedMap K V) (k : K)
    (h : k ∈ m.keys) : ∃ node, m.find k = some node :=
  Option.ne_none_iff_exists'.mp ((m.find_ne_none_iff k).mpr h)

/-- C1: an owner that is not a key of the owner->clock map makes `GetClock` fail
its check with "cannot find index to pointer", and no clock is returned; this is
so whatever map stands in `psolver_to_idx_`. -/
theorem GetClock_unknown_owner_fails (self : ParamBuf) (idx : UnorderedMap Ptr Int)
    (psolver : Ptr) (h : psolver ∉ self.psolver_to_clock_.keys) :
    ({ self with psolver_to_idx_ := idx }.GetClock psolver).1
        = .checkFailed "cannot find index to pointer: " psolver
      ∧ ∀ c, ({ self with psolver_to_idx_ := idx }.GetClock psolver).1 ≠ .returned c := by
  have hf : ({ self with psolver_to_idx_ := idx } : ParamBuf).psolver_to_clock_.find psolver
      = none := (UnorderedMap.find_eq_none_iff _ _).mpr h
  rw [GetClock_of_find_none _ _ hf]
  exact ⟨rfl, fun c hc => by cases hc⟩

theorem GetClock_unknown_owner_fails_witness :
    (8 : Ptr) ∉ samplePool.psolver_to_clock_.keys
      ∧ (({ samplePool with psolver_to_idx_ := samplePool.pointer_to_idx_ }.GetClock 8).1
            = .checkFailed "cannot find index to pointer: " (8 : Ptr)
          ∧ ∀ c, ({ samplePool with psolver_to_idx_ := samplePool.pointer_to_idx_ }.GetClock 8).1
              ≠ .returned c) :=
  ⟨by decide, GetClock_unknown_owner_fails samplePool samplePool.pointer_to_idx_ 8 (by decide)⟩

/-- C2: an owner recorded with clock `c` in the owner->clock map makes `GetClock`
return exactly `c`, and the pool it leaves is the pool it was given, field for
field. -/
theorem GetClock_known_owner (self : ParamBuf) (psolver : Ptr) (c : Int)
    (h : (psolver, c) ∈ self.psolver_to_clock_.nodes) :
    self.GetClock psolver = (.returned c, self) := by
  have hf : self.psolver_to_clock_.find psolver = some (psolver, c) :=
    (UnorderedMap.find_eq_some_iff _ _ _).mpr ⟨h, rfl⟩
  exact GetClock_of_find_some _ _ _ hf

theorem GetClock_known_owner_witness :
    ((9 : Ptr), (5 : Int)) ∈ samplePool.psolver_to_clock_.nodes
      ∧ samplePool.GetClock 9 = (.returned 5, samplePool) :=
  ⟨by decide, GetClock_known_owner samplePool 9 5 (by decide)⟩

/-- C3: `RemoveClock` fails its check exactly when the clock is not a key of the
clock->slot map; the failure reports "cannot find clock in map" and leaves the
pool as it was, and a clock that is a key makes the call return. -/
theorem RemoveClock_fails_iff_unknown (self : ParamBuf) (clock : Int) :
    ((self.RemoveClock clock).1 = .checkFailed "cannot find clock in map: " clock
        ↔ clock ∉ self.clock_to_idx_.keys)
      ∧ ((self.RemoveClock clock).1 = .returned () ↔ clock ∈ self.clock_to_idx_.keys)
      ∧ (clock ∉ self.clock_to_idx_.keys → (self.RemoveClock clock).2 = self) := by
  cases hf : self.clock_to_idx_.find clock with
  | none =>
    have hk : clock ∉ self.clock_to_idx_.keys := (UnorderedMap.find_eq_none_iff _ _).mp hf
    rw [RemoveClock_of_find_none _ _ hf]
    exact ⟨⟨fun _ => hk, fun _ => rfl⟩, ⟨fun e => (by cases e), fun e => absurd e hk⟩,
      fun _ => rfl⟩
  | some node =>
    have hk : clock ∈ self.clock_to_idx_.keys :=
      (UnorderedMap.find_ne_none_iff _ _).mp (by rw [hf]; exact Option.some_ne_none _)
    rw [RemoveClock_of_find_some _ _ _ hf]
    exact ⟨⟨fun e => (by cases e), fun e => absurd hk e⟩, ⟨fun _ => hk, fun _ => rfl⟩,
      fun e => absurd hk e⟩

/-- C4: retiring a clock that is a key of the clock->slot map removes its node
and no other: the clock is no longer found, every other clock is found exactly
as before (same node, hence same slot index), and the map has one node less. -/
theorem RemoveClock_removes_exactly_one (self : ParamBuf) (c : Int)
    (h : c ∈ self.clock_to_idx_.keys) :
    (self.RemoveClock c).2.clock_to_idx_.find c = none
      ∧ c ∉ (self.RemoveClock c).2.clock_to_idx_.keys
      ∧ (∀ c', c' ≠ c →
          (self.RemoveClock c).2.clock_to_idx_.find c' = self.clock_to_idx_.find c')
      ∧ (self.RemoveClock c).2.clock_to_idx_.size + 1 = self.clock_to_idx_.size := by
  obtain ⟨node, hf⟩ := exists_find_of_mem_keys _ _ h
  obtain ⟨hmem, hkey⟩ := (UnorderedMap.find_eq_some_iff _ _ _).mp hf
  rw [RemoveClock_of_find_some _ _ _ hf]
  have h1 := UnorderedMap.find_erase_self _ _ _ hf
  refine ⟨h1, (UnorderedMap.find_eq_none_iff _ _).mp h1, ?_, UnorderedMap.size_erase _ _ hmem⟩
  intro c' hc'
  exact UnorderedMap.find_erase_of_ne _ _ _ (by rw [hkey]; exact hc')

theorem RemoveClock_removes_exactly_one_witness :
    (3 : Int) ∈ samplePool.clock_to_idx_.keys
      ∧ ((samplePool.RemoveClock 3).2.clock_to_idx_.find 3 = none
        ∧ (3 : Int) ∉ (samplePool.RemoveClock 3).2.clock_to_idx_.keys
        ∧ (∀ c', c' ≠ 3 →
            (samplePool.RemoveClock 3).2.clock_to_idx_.find c' = samplePool.clock_to_idx_.find c')
        ∧ (samplePool.RemoveClock 3).2.clock_to_idx_.size + 1 = samplePool.clock_to_idx_.size) :=
  ⟨by decide, RemoveClock_removes_exactly_one samplePool 3 (by decide)⟩

/-- C5: whether it returns or fails, `RemoveClock` leaves the slot vector, the
reference counts, the latest pointer, the pointer->slot map, the owner->slot map
and the owner->clock map as they were, and `GetClock` answers every owner after
it as it did before it. -/
theorem RemoveClock_frame (self : ParamBuf) (clock : Int) :
    (self.RemoveClock clock).2.param_vec_ = self.param_vec_
      ∧ (self.RemoveClock clock).2.ref_cnt_vec_ = self.ref_cnt_vec_
      ∧ (self.RemoveClock clock).2.platest_param_ = self.platest_param_
      ∧ (self.RemoveClock clock).2.pointer_to_idx_ = self.pointer_to_idx_
      ∧ (self.RemoveClock clock).2.psolver_to_idx_ = self.psolver_to_idx_
      ∧ (self.RemoveClock clock).2.psolver_to_clock_ = self.psolver_to_clock_
      ∧ ∀ psolver,
          ((self.RemoveClock clock).2.GetClock psolver).1 = (self.GetClock psolver).1 := by
  cases hf : self.clock_to_idx_.find clock with
  | none =>
    rw [RemoveClock_of_find_none _ _ hf]
    exact ⟨rfl, rfl, rfl, rfl, rfl, rfl, fun _ => rfl⟩
  | some node =>
    rw [RemoveClock_of_find_some _ _ _ hf]
    refine ⟨rfl, rfl, rfl, rfl, rfl, rfl, fun psolver => ?_⟩
    cases hg : self.psolver_to_clock_.find psolver with
    | none =>
      rw [GetClock_of_find_none _ _ hg, GetClock_of_find_none _ _ (by exact hg)]
    | some n =>
      rw [GetClock_of_find_some _ _ _ hg, GetClock_of_find_some _ _ n (by exact hg)]

/-- C8: once `RemoveClock c` has returned for a clock the pool knew, the next
`RemoveClock c` fails with "cannot find clock in map": a clock entry is retired
at most once. -/
theorem RemoveClock_twice_fails (self : ParamBuf) (c : Int)
    (h : c ∈ self.clock_to_idx_.keys) :
    (self.RemoveClock c).1 = .returned ()
      ∧ ((self.RemoveClock c).2.RemoveClock c).1
          = .checkFailed "cannot find clock in map: " c := by
  obtain ⟨node, hf⟩ := exists_find_of_mem_keys _ _ h
  rw [RemoveClock_of_find_some _ _ _ hf]
  refine ⟨rfl, ?_⟩
  rw [RemoveClock_of_find_none _ _ (UnorderedMap.find_erase_self _ _ _ hf)]

theorem RemoveClock_twice_fails_witness :
    (5 : Int) ∈ samplePool.clock_to_idx_.keys
      ∧ ((samplePool.RemoveClock 5).1 = .returned ()
        ∧ ((samplePool.RemoveClock 5).2.RemoveClock 5).1
            = .checkFailed "cannot find clock in map: " 5) :=
  ⟨by decide, RemoveClock_twice_fails samplePool 5 (by decide)⟩

/-- C10: a freshly constructed pool has no latest version, no slots, no
reference counts and empty maps; on it `GetClock` fails for every owner and
`RemoveClock` fails for every clock. -/
theorem new_is_empty :
    ParamBuf.new.platest_param_ = none
      ∧ ParamBuf.new.param_vec_ = []
      ∧ ParamBuf.new.ref_cnt_vec_ = []
      ∧ ParamBuf.new.pointer_to_idx_.nodes = []
      ∧ ParamBuf.new.psolver_to_idx_.nodes = []
      ∧ ParamBuf.new.psolver_to_clock_.nodes = []
      ∧ ParamBuf.new.clock_to_idx_.nodes = []
      ∧ (∀ psolver : Ptr, (ParamBuf.new.GetClock psolver).1
          = .checkFailed "cannot find index to pointer: " psolver)
      ∧ (∀ clock : Int, (ParamBuf.new.RemoveClock clock).1
          = .checkFailed "cannot find clock in map: " clock) := by
  refine ⟨rfl, rfl, rfl, rfl, rfl, rfl, rfl, fun psolver => ?_, fun clock => ?_⟩
  · rw [GetClock_of_find_none ParamBuf.new psolver rfl]
  · rw [RemoveClock_of_find_none ParamBuf.new clock rfl]

end ParamBuf

/-! ## The accessor `FcWorker::GetParamBuf` -/

namespace FcWorker

variable {Dtype : Type} [DecidableEq Dtype]

end FcWorker

/-! ## The members defined outside the header -/

namespace ParamBuf

/-- C6: `FindFreeParam` never returns the latest version. A slot it returns sits
at a position whose reference count is 0 and is not the one `platest_param_`
points to, and it returns `NULL` exactly when no position holds such a slot. -/
theorem FindFreeParam_not_latest (self : ParamBuf) :
    (∀ p, self.FindFreeParam = some p →
        some p ≠ self.platest_param_
          ∧ ∃ i : Nat, self.param_vec_[i]? = some p ∧ self.ref_cnt_vec_[i]? = some 0)
      ∧ (self.FindFreeParam = none ↔
          ∀ (i : Nat) (p : Ptr), self.param_vec_[i]? = some p → self.ref_cnt_vec_[i]? = some 0 →
            some p = self.platest_param_) := by
  unfold FindFreeParam
  constructor
  · intro p h
    obtain ⟨slot, hs, rfl⟩ := Option.map_eq_some'.mp h
    have hp := List.find?_some hs
    have hm := List.mem_of_find?_eq_some hs
    simp only [decide_eq_true_eq] at hp
    obtain ⟨i, hi⟩ := List.mem_iff_getElem?.mp hm
    obtain ⟨h1, h2⟩ := List.getElem?_zip_eq_some.mp hi
    exact ⟨hp.2, i, h1, by rw [h2, hp.1]⟩
  · rw [Option.map_eq_none', List.find?_eq_none]
    constructor
    · intro h i p h1 h2
      have hm : (p, (0 : Int)) ∈ self.param_vec_.zip self.ref_cnt_vec_ :=
        List.mem_iff_getElem?.mpr ⟨i, List.getElem?_zip_eq_some.mpr ⟨h1, h2⟩⟩
      have := h _ hm
      simp only [decide_eq_true_eq, not_and, not_not, true_implies] at this
      exact this
    · intro h slot hm
      obtain ⟨i, hi⟩ := List.mem_iff_getElem?.mp hm
      obtain ⟨h1, h2⟩ := List.getElem?_zip_eq_some.mp hi
      simp only [decide_eq_true_eq, not_and, not_not]
      intro h0
      exact h i slot.1 h1 (by rw [h2, h0])

theorem Tracks_InitParamBuf (p : Ptr) : Tracks p [] (ParamBuf.new.InitParamBuf p) := by
  refine ⟨rfl, ?_, ?_, List.nodup_nil, ?_, ?_⟩
  · simp [InitParamBuf, ParamBuf.new, UnorderedMap.insert, UnorderedMap.empty]
  · simp [InitParamBuf, ParamBuf.new]
  · intro o
    simp [InitParamBuf, ParamBuf.new, UnorderedMap.keys, UnorderedMap.empty]
  · intro n hn
    simp [InitParamBuf, ParamBuf.new, UnorderedMap.empty] at hn

theorem latest_slot_of_Tracks {p : Ptr} {held : List Ptr} {s : ParamBuf}
    (hT : Tracks p held s) :
    s.platest_param_.bind s.pointer_to_idx_.find = some (p, 0) := by
  obtain ⟨h1, h2, -⟩ := hT
  rw [h1]
  simp [UnorderedMap.find, h2]

theorem RefParam_Tracks {p : Ptr} {held : List Ptr} {s : ParamBuf} (o : Ptr) (clock : Int)
    (hT : Tracks p held s) (ho : o ∉ held) :
    (∃ r, (s.RefParam o clock).1 = .returned r)
      ∧ Tracks p (o :: held) (s.RefParam o clock).2 := by
  have hl := latest_slot_of_Tracks hT
  obtain ⟨h1, h2, h3, h4, h5, h6⟩ := hT
  have hk : o ∉ s.psolver_to_idx_.keys := fun e => ho ((h5 o).mp e)
  have hf : s.psolver_to_idx_.find o = none := (UnorderedMap.find_eq_none_iff _ _).mpr hk
  have hins : (s.psolver_to_idx_.insert o 0).nodes = (o, 0) :: s.psolver_to_idx_.nodes := by
    unfold UnorderedMap.insert
    rw [dif_neg (show o ∉ List.map Prod.fst s.psolver_to_idx_.nodes from hk)]
  simp only [RefParam, hf, hl, h3, at?]
  simp only [Int.toNat_zero, le_refl, if_true, List.get?_cons_zero, List.set_cons_zero]
  refine ⟨⟨_, rfl⟩, h1, h2, ?_, List.nodup_cons.mpr ⟨ho, h4⟩, ?_, ?_⟩
  · simp
  · intro o'
    simp only [UnorderedMap.keys, hins, List.map_cons, List.mem_cons]
    exact or_congr Iff.rfl (h5 o')
  · intro n hn
    rw [hins] at hn
    rcases List.mem_cons.mp hn with e | e
    · rw [e]
    · exact h6 n e

theorem DeRefParam_Tracks {p : Ptr} {held : List Ptr} {s : ParamBuf} (o : Ptr)
    (hT : Tracks p held s) (ho : o ∈ held) :
    (s.DeRefParam o).1 = .returned ()
      ∧ Tracks p (held.erase o) (s.DeRefParam o).2 := by
  obtain ⟨h1, h2, h3, h4, h5, h6⟩ := hT
  obtain ⟨node, hf⟩ := exists_find_of_mem_keys _ _ ((h5 o).mpr ho)
  obtain ⟨hmem, hkey⟩ := (UnorderedMap.find_eq_some_iff _ _ _).mp hf
  have hidx : node.2 = 0 := h6 node hmem
  have hpos : 0 < held.length := List.length_pos_of_mem ho
  have hlen : ((held.erase o).length : Int) = (held.length : Int) - 1 := by
    rw [List.length_erase_of_mem ho]
    omega
  have hnneg : ¬ ((held.length : Int) - 1 < 0) := by omega
  simp only [DeRefParam, hf, hidx, h3, at?]
  simp only [Int.toNat_zero, le_refl, if_true, List.get?_cons_zero, List.set_cons_zero,
    if_neg hnneg]
  refine ⟨trivial, h1, h2, ?_, h4.erase o, ?_, ?_⟩
  · simp only [hlen]
  · intro o'
    rw [List.Nodup.mem_erase_iff h4, ← h5 o']
    by_cases e : o' = o
    · subst e
      simp only [ne_eq, not_true_eq_false, false_and, iff_false]
      exact (UnorderedMap.find_eq_none_iff _ _).mp (UnorderedMap.find_erase_self _ _ _ hf)
    · simp only [ne_eq, e, not_false_eq_true, true_and]
      rw [← UnorderedMap.find_ne_none_iff, ← UnorderedMap.find_ne_none_iff,
        UnorderedMap.find_erase_of_ne _ _ _ (by rw [hkey]; exact e)]
  · intro n hn
    exact h6 n (List.mem_of_mem_erase hn)

theorem run_Tracks (p : Ptr) (calls : List Call) :
    ∀ (held : List Ptr) (s : ParamBuf), Tracks p held s → disjointOwners held calls →
      (run s calls).1 = .returned () ∧ Tracks p (unreleased held calls) (run s calls).2 := by
  induction calls with
  | nil => intro held s hT _; exact ⟨rfl, hT⟩
  | cons c cs ih =>
    intro held s hT hd
    cases c with
    | RefParam o clock =>
      obtain ⟨⟨r, hr⟩, hT'⟩ := RefParam_Tracks o clock hT hd.1
      have hs : step s (.RefParam o clock) = (.returned (), (s.RefParam o clock).2) := by
        simp only [step]
        rw [show s.RefParam o clock = (.returned r, (s.RefParam o clock).2) from
          Prod.ext hr rfl]
      simp only [run, hs, unreleased]
      exact ih _ _ hT' hd.2
    | DeRefParam o =>
      obtain ⟨hr, hT'⟩ := DeRefParam_Tracks o hT hd.1
      have hs : step s (.DeRefParam o) = (.returned (), (s.DeRefParam o).2) :=
        Prod.ext hr rfl
      simp only [run, hs, unreleased]
      exact ih _ _ hT' hd.2

theorem disjointOwners_take (calls : List Call) :
    ∀ (held : List Ptr) (n : Nat), disjointOwners held calls →
      disjointOwners held (calls.take n) := by
  induction calls with
  | nil => intro held n h; simpa using h
  | cons c cs ih =>
    intro held n h
    cases n with
    | zero => exact trivial
    | succ n =>
      cases c with
      | RefParam o clock => exact ⟨h.1, ih _ n h.2⟩
      | DeRefParam o => exact ⟨h.1, ih _ n h.2⟩

/-- C7: from a pool initialised by `InitParamBuf`, along every sequence of
`RefParam` and `DeRefParam` calls that keeps its owners apart, every call
returns, and after each call the reference counts add up to the number of owners
bound and not yet released, none of the counts being negative. -/
theorem ref_counts_sum_eq_unreleased (p : Ptr) (calls : List Call) (n : Nat)
    (h : disjointOwners [] calls) :
    (run (ParamBuf.new.InitParamBuf p) (calls.take n)).1 = .returned ()
      ∧ (run (ParamBuf.new.InitParamBuf p) (calls.take n)).2.ref_cnt_vec_.sum
          = ((unreleased [] (calls.take n)).length : Int)
      ∧ ∀ cnt ∈ (run (ParamBuf.new.InitParamBuf p) (calls.take n)).2.ref_cnt_vec_,
          0 ≤ cnt := by
  obtain ⟨hr, hT⟩ := run_Tracks p (calls.take n) [] _ (Tracks_InitParamBuf p)
    (disjointOwners_take calls [] n h)
  obtain ⟨-, -, h3, -⟩ := hT
  refine ⟨hr, ?_, ?_⟩
  · rw [h3]; simp
  · intro cnt hc
    rw [h3] at hc
    rw [List.mem_singleton.mp hc]
    exact Int.ofNat_nonneg _

theorem ref_counts_sum_eq_unreleased_witness :
    disjointOwners [] sampleCalls
      ∧ ((run (ParamBuf.new.InitParamBuf 100) (sampleCalls.take 3)).1 = .returned ()
        ∧ (run (ParamBuf.new.InitParamBuf 100) (sampleCalls.take 3)).2.ref_cnt_vec_.sum
            = ((unreleased [] (sampleCalls.take 3)).length : Int)
        ∧ ∀ cnt ∈ (run (ParamBuf.new.InitParamBuf 100) (sampleCalls.take 3)).2.ref_cnt_vec_,
            0 ≤ cnt) :=
  ⟨by simp [disjointOwners, sampleCalls],
    ref_counts_sum_eq_unreleased 100 sampleCalls 3 (by simp [disjointOwners, sampleCalls])⟩

end ParamBuf

end caffe
